import Mathlib

/-! Geist: the user endpoints.

Shallow embedding of `backend/api/users.go`.  The three handlers and the schema
initialiser are functions that take the store and hand it back next to the HTTP
response.  The collaborators the handlers call but the repository does not contain
(the relational store behind `db.DB`, gin's JSON binder) are kept small and explicit:
each statement the handlers issue gets the meaning the statement text and the struct
tags of `User` give it, and what the repository leaves open (the email pattern, the
text of a binding error, how the store reads a text parameter as an integer) stays a
parameter.  A timestamp is kept by the store with microsecond precision, so a row read back
can differ from the struct that was inserted.
-/

namespace Geist

/-! ## Data model -/

/-- Instant held by a `time.Time`, in nanoseconds counted from the zero value `time.Time{}`.
The zone a timestamp is rendered in is not part of this development. -/
structure Time where
  nanos : Nat
deriving DecidableEq, Repr

/-- Go's `Time.IsZero`. -/
def Time.IsZero (t : Time) : Bool := t.nanos == 0

/-- The `User` struct of users.go: an `int64` key, two strings and a timestamp. -/
structure User where
  ID : Int
  Name : String
  Email : String
  CreatedAt : Time
deriving DecidableEq, Repr

/-- Zero value of `User`, what `var user User` declares. -/
def User.zero : User := ⟨0, "", "", ⟨0⟩⟩

/-- The instant a timestamp column hands back for an instant written to it.  The store
opened in db.go (bun over SQLite) writes a timestamp with microsecond precision: what is
below a microsecond is cut off. -/
def storedTime (t : Time) : Time := ⟨t.nanos / 1000 * 1000⟩

/-- The row the table holds for a user struct: the same key, name and email, the timestamp
as the store keeps it. -/
def storedRow (u : User) : User := { u with CreatedAt := storedTime u.CreatedAt }

/-- Largest `int64`, the largest key the table can hold. -/
def maxInt64 : Int := 9223372036854775807

/-- Errors the storage calls return: the sentinel `sql.ErrNoRows`, or any other error,
known to the handlers only through its message. -/
inductive GoError
  | ErrNoRows
  | other (text : String)
deriving DecidableEq, Repr

/-- Go's `err.Error()`. -/
def GoError.Error : GoError → String
  | .ErrNoRows => "sql: no rows in result set"
  | .other text => text

/-- Go's `errors.Is(err, sql.ErrNoRows)`. -/
def GoError.isErrNoRows : GoError → Bool
  | .ErrNoRows => true
  | .other _ => false

/-- A Go value of type `[]User`: the nil slice, or a slice backed by an array. -/
inductive UserSlice
  | nil
  | of (elems : List User)
deriving DecidableEq, Repr

/-- Elements of a slice; the nil slice has none. -/
def UserSlice.toList : UserSlice → List User
  | .nil => []
  | .of elems => elems

/-- Re-slicing to length zero, `s[:0]`; nil stays nil. -/
def UserSlice.reset : UserSlice → UserSlice
  | .nil => .nil
  | .of _ => .of []

/-- Go's `append(s, xs...)`: appending nothing to the nil slice leaves it nil. -/
def UserSlice.append : UserSlice → List User → UserSlice
  | .nil, [] => .nil
  | .nil, x :: xs => .of (x :: xs)
  | .of elems, xs => .of (elems ++ xs)

/-! ## The store -/

/-- The `users` table: its rows, and the largest key the table has ever held (what an
`autoincrement` key keeps so that keys of deleted rows are not handed out again). -/
structure Table where
  rows : List User
  seq : Nat
deriving DecidableEq, Repr

/-- State of the relational store behind `db.DB`.  `fault` is a condition under which the
store rejects every statement (connection lost, file unreadable or corrupt), with the
message it reports; `users` is the table, absent until the schema is created;
`currentTimestamp` is what the column default `current_timestamp` evaluates to. -/
structure Store where
  fault : Option String
  users : Option Table
  currentTimestamp : Time
deriving DecidableEq, Repr

/-- Rows of the users table, none when the table is absent. -/
def Store.rows (s : Store) : List User :=
  match s.users with
  | none => []
  | some t => t.rows

/-- Largest key ever held by the users table, 0 when the table is absent. -/
def Store.seq (s : Store) : Nat :=
  match s.users with
  | none => 0
  | some t => t.seq

/-- Message of the error a statement on a missing table gets. -/
def noSuchTable : String := "no such table: users"

/-- Message of the error an insert gets when no key is left. -/
def databaseFull : String := "database or disk is full"

/-- Message of the error an insert of an already used key gets. -/
def uniqueFailed : String := "UNIQUE constraint failed: users.id"

/-- One more than the largest key among the rows, 1 for no rows. -/
def afterRows : List User → Int
  | [] => 1
  | r :: rs => max (r.ID + 1) (afterRows rs)

/-- Key an `autoincrement` column gives the next row: larger than every key in the table
and than every key the table has held before. -/
def nextID (t : Table) : Int := max (afterRows t.rows) ((t.seq : Int) + 1)

/-- Modelled from the spec: the store executing `NewCreateTable().Model((*User)(nil)).IfNotExists()`
(bun over SQLite, not part of the repository).  A create-table request with an
"if not exists" guard: an existing table is left as it is, a missing one is created
empty; the store may reject the statement. -/
def execCreateTableIfNotExists (s : Store) : Option GoError × Store :=
  match s.fault with
  | some msg => (some (.other msg), s)
  | none =>
    match s.users with
    | some _ => (none, s)
    | none => (none, { s with users := some ⟨[], 0⟩ })

/-- Rows in ascending key order, the meaning of `Order("id ASC")`. -/
def orderByID (rows : List User) : List User :=
  rows.insertionSort (fun a b => a.ID ≤ b.ID)

/-- Modelled from the spec: the store executing `NewSelect().Model(&users).Order("id ASC").Scan(ctx)`
(bun over SQLite, not part of the repository).  All rows are queried in ascending key
order and appended to the destination slice, which is first cut to length zero. -/
def scanUsersOrderByID (dest : UserSlice) (s : Store) : Except GoError UserSlice × Store :=
  match s.fault with
  | some msg => (.error (.other msg), s)
  | none =>
    match s.users with
    | none => (.error (.other noSuchTable), s)
    | some t => (.ok (dest.reset.append (orderByID t.rows)), s)

/-- Modelled from the spec: the store executing `NewInsert().Model(&user).Exec(ctx)`
(bun over SQLite, not part of the repository).  The key is `pk,autoincrement`: a zero
`ID` is assigned by the store and written back into the struct.  `CreatedAt` is
`nullzero,default:current_timestamp`: a zero timestamp is replaced by the current time of
the store and read back into the struct; any other timestamp is written to the row, at the
precision of the store, and the struct keeps the value it had.  The row is added to the
table. -/
def execInsert (user : User) (s : Store) : Except GoError User × Store :=
  match s.fault with
  | some msg => (.error (.other msg), s)
  | none =>
    match s.users with
    | none => (.error (.other noSuchTable), s)
    | some t =>
      let written := if user.CreatedAt.IsZero then s.currentTimestamp else user.CreatedAt
      let back := if user.CreatedAt.IsZero then storedTime written else user.CreatedAt
      if user.ID = 0 then
        if maxInt64 < nextID t then (.error (.other databaseFull), s)
        else
          let row : User := { user with ID := nextID t, CreatedAt := storedTime written }
          (.ok { user with ID := nextID t, CreatedAt := back },
            { s with users := some ⟨t.rows ++ [row], (nextID t).toNat⟩ })
      else if t.rows.any (fun r => r.ID == user.ID) then (.error (.other uniqueFailed), s)
      else
        let row : User := { user with CreatedAt := storedTime written }
        (.ok { user with CreatedAt := back },
          { s with users := some ⟨t.rows ++ [row], max t.seq user.ID.toNat⟩ })

/-- Modelled from the spec: the store executing `NewSelect().Model(&user).Where("id = ?", id).Scan(ctx)`
(bun over SQLite, not part of the repository).  The path parameter goes into the query
as an opaque string; `coerce` is the integer the store compares that text as, if any.
Exactly one row is asked for: no matching row is `sql.ErrNoRows`. -/
def scanUserWhereID (coerce : String → Option Int) (id : String) (_dest : User) (s : Store) :
    Except GoError User × Store :=
  match s.fault with
  | some msg => (.error (.other msg), s)
  | none =>
    match s.users with
    | none => (.error (.other noSuchTable), s)
    | some t =>
      match (coerce id).bind (fun n => t.rows.find? (fun r => r.ID == n)) with
      | none => (.error .ErrNoRows, s)
      | some row => (.ok row, s)

/-- Removal of the rows with a given key by an administrator acting on the store directly
(the service itself never deletes).  The table keeps its record of the keys it held. -/
def removeRow (id : Int) (s : Store) : Store :=
  match s.users with
  | none => s
  | some t => { s with users := some ⟨t.rows.filter (fun r => r.ID != id), t.seq⟩ }

/-! ## Requests and responses -/

/-- The status codes the handlers write. -/
def StatusOK : Nat := 200

/-- Status 201. -/
def StatusCreated : Nat := 201

/-- Status 400. -/
def StatusBadRequest : Nat := 400

/-- Status 404. -/
def StatusNotFound : Nat := 404

/-- Status 500. -/
def StatusInternalServerError : Nat := 500

/-- JSON document written by `c.JSON`: `null`, an array of user objects, one user object,
or the object `gin.H` with the single key "error". -/
inductive Body
  | null
  | users (us : List User)
  | user (u : User)
  | error (msg : String)
deriving DecidableEq, Repr

/-- What `c.JSON` has written: the status and the body. -/
structure Response where
  status : Nat
  body : Body
deriving DecidableEq, Repr

/-- The encoding of a `[]User` by encoding/json: a nil slice is `null`, any other slice an
array. -/
def marshalUsers : UserSlice → Body
  | .nil => .null
  | .of elems => .users elems

/-- Body of a POST as encoding/json sees it: either it does not decode into the input
struct (with the decoder's message), or it is an object whose keys "name" and "email"
are strings or are absent (or null). -/
inductive RawBody
  | malformed (err : String)
  | object (name : Option String) (email : Option String)
deriving DecidableEq, Repr

/-- The anonymous input struct of `createUser`. -/
structure CreateInput where
  Name : String
  Email : String
deriving DecidableEq, Repr

/-- The parts of the struct validator the repository does not fix: the pattern behind the
`email` rule and the message reported for a field that fails a rule. -/
structure Validator where
  isEmail : String → Bool
  fieldError : String → String → String

/-- The rules of the binding tags: `Name` is `required`; `Email` is `required,email`.  Each
field reports the first rule it fails. -/
def validate (v : Validator) (inp : CreateInput) : List String :=
  (if inp.Name = "" then [v.fieldError "Name" "required"] else []) ++
  (if inp.Email = "" then [v.fieldError "Email" "required"]
   else if v.isEmail inp.Email then [] else [v.fieldError "Email" "email"])

/-- Modelled from the spec: gin's `c.ShouldBindJSON(&in)` (not part of the repository).  The body
is decoded into the input struct, a missing key leaving the zero value, and the struct is
validated by its binding tags; a failure of either is reported as an error message. -/
def shouldBindJSON (v : Validator) (body : RawBody) : Except String CreateInput :=
  match body with
  | .malformed err => .error err
  | .object name email =>
    let inp : CreateInput := ⟨name.getD "", email.getD ""⟩
    match validate v inp with
    | [] => .ok inp
    | e :: es => .error ("\n".intercalate (e :: es))

/-! ## users.go -/

/-- The function `InitUserModel`: create the table if it is not there, return the error. -/
def InitUserModel (s : Store) : Option GoError × Store :=
  execCreateTableIfNotExists s

/-- The handler `listUsers`. -/
def listUsers (s : Store) : Response × Store :=
  let users : UserSlice := .nil
  match scanUsersOrderByID users s with
  | (.error err, s1) => (⟨StatusInternalServerError, .error err.Error⟩, s1)
  | (.ok users, s1) => (⟨StatusOK, marshalUsers users⟩, s1)

/-- The handler `createUser`; `now` is the reading of `time.Now()`. -/
def createUser (v : Validator) (now : Time) (body : RawBody) (s : Store) : Response × Store :=
  match shouldBindJSON v body with
  | .error msg => (⟨StatusBadRequest, .error msg⟩, s)
  | .ok inp =>
    let user : User := { ID := 0, Name := inp.Name, Email := inp.Email, CreatedAt := now }
    match execInsert user s with
    | (.error err, s1) => (⟨StatusInternalServerError, .error err.Error⟩, s1)
    | (.ok user, s1) => (⟨StatusCreated, .user user⟩, s1)

/-- The handler `getUser`; `id` is `c.Param("id")`. -/
def getUser (coerce : String → Option Int) (id : String) (s : Store) : Response × Store :=
  let user : User := User.zero
  match scanUserWhereID coerce id user s with
  | (.error err, s1) =>
    if err.isErrNoRows then (⟨StatusNotFound, .error "not found"⟩, s1)
    else (⟨StatusInternalServerError, .error err.Error⟩, s1)
  | (.ok user, s1) => (⟨StatusOK, .user user⟩, s1)

/-! ## Runs of the service -/

/-- What happens to the store between two observations: a Create request, or the removal
of a row by an administrator. -/
inductive Action
  | create (now : Time) (body : RawBody)
  | remove (id : Int)
deriving DecidableEq, Repr

/-- The user a response to Create carries when it is a 201. -/
def createdUser (r : Response) : Option User :=
  if r.status = StatusCreated then
    match r.body with
    | .user u => some u
    | _ => none
  else none

/-- Runs the actions in order; returns the users the successful Creates returned, in the
order of their creation, and the final store. -/
def run (v : Validator) : List Action → Store → List User × Store
  | [], s => ([], s)
  | .create now body :: rest, s =>
    let out := createUser v now body s
    let tail := run v rest out.2
    ((createdUser out.1).toList ++ tail.1, tail.2)
  | .remove id :: rest, s => run v rest (removeRow id s)

/-- Reading of a string of decimal digits, most significant first. -/
def readDigits : List Char → Nat → Option Nat
  | [], acc => some acc
  | c :: cs, acc => if c.isDigit then readDigits cs (acc * 10 + (c.toNat - 48)) else none

/-- The integer a plain decimal literal denotes: digits with an optional minus sign.  One
reading a store can give a text parameter. -/
def readDecimal (str : String) : Option Int :=
  match str.data with
  | [] => none
  | '-' :: cs => if cs = [] then none else (readDigits cs 0).map (fun n => - (n : Int))
  | cs => (readDigits cs 0).map Int.ofNat

/-- A validator whose email rule asks for an at sign. -/
def sampleValidator : Validator :=
  ⟨fun e => e.data.contains '@', fun field tag => field ++ ": " ++ tag⟩

/-- A store right after start-up: no fault, the table created and empty. -/
def freshStore : Store := (InitUserModel ⟨none, none, ⟨1000⟩⟩).2

/-- The request body of the spec's scenario. -/
def adaBody : RawBody := .object (some "Ada") (some "ada@example.com")

/-- A reading of the clock with digits below the microsecond. -/
def adaNow : Time := ⟨63929382566985792055⟩

/-- The user the scenario's Create returns on a fresh store. -/
def ada : User := ⟨1, "Ada", "ada@example.com", adaNow⟩

/-! ## Input validation -/

theorem shouldBindJSON_invalid (v : Validator) (name email : Option String)
    (h : name.getD "" = "" ∨ email.getD "" = "" ∨ v.isEmail (email.getD "") = false) :
    ∃ msg, shouldBindJSON v (.object name email) = .error msg := by
  unfold shouldBindJSON validate
  by_cases hn : name.getD "" = ""
  · by_cases he : email.getD "" = ""
    · simp [hn, he]
    · by_cases hv : v.isEmail (email.getD "") = true <;> simp [hn, he, hv]
  · by_cases he : email.getD "" = ""
    · simp [hn, he]
    · have hv : v.isEmail (email.getD "") = false := by
        rcases h with h | h | h
        · exact absurd h hn
        · exact absurd h he
        · exact h
      simp [hn, he, hv]

theorem shouldBindJSON_valid (v : Validator) (name email : String)
    (hn : name ≠ "") (he : email ≠ "") (hv : v.isEmail email = true) :
    shouldBindJSON v (.object (some name) (some email)) = .ok ⟨name, email⟩ := by
  simp [shouldBindJSON, validate, hn, he, hv]

/-- C1: a Create whose body has an empty or missing name, an empty or missing email, or an
email the validator rejects is answered 400 with an error object, and the store is handed
back as it was, so a following List answers as it would have before. -/
theorem createUser_invalid_rejected (v : Validator) (now : Time) (name email : Option String)
    (s : Store)
    (h : name.getD "" = "" ∨ email.getD "" = "" ∨ v.isEmail (email.getD "") = false) :
    (∃ msg, createUser v now (.object name email) s = (⟨400, .error msg⟩, s)) ∧
      (createUser v now (.object name email) s).2 = s ∧
      listUsers (createUser v now (.object name email) s).2 = listUsers s := by
  obtain ⟨msg, hmsg⟩ := shouldBindJSON_invalid v name email h
  have hc : createUser v now (.object name email) s = (⟨400, .error msg⟩, s) := by
    simp [createUser, hmsg, StatusBadRequest]
  exact ⟨⟨msg, hc⟩, by rw [hc], by rw [hc]⟩

/-- C1 at the spec's example: the email "not-an-email" on a fresh store. -/
theorem createUser_invalid_rejected_witness :
    (∃ msg, createUser sampleValidator adaNow (.object (some "Ada") (some "not-an-email")) freshStore
        = (⟨400, .error msg⟩, freshStore)) ∧
      (createUser sampleValidator adaNow (.object (some "Ada") (some "not-an-email")) freshStore).2
        = freshStore ∧
      listUsers (createUser sampleValidator adaNow (.object (some "Ada") (some "not-an-email"))
        freshStore).2 = listUsers freshStore :=
  createUser_invalid_rejected sampleValidator adaNow (some "Ada") (some "not-an-email") freshStore
    (Or.inr (Or.inr (by decide)))

/-! ## Facts about the storage calls -/

theorem scanUsersOrderByID_store (dest : UserSlice) (s : Store) :
    (scanUsersOrderByID dest s).2 = s := by
  unfold scanUsersOrderByID
  cases s.fault <;> cases s.users <;> rfl

theorem scanUserWhereID_store (coerce : String → Option Int) (id : String) (dest : User)
    (s : Store) : (scanUserWhereID coerce id dest s).2 = s := by
  unfold scanUserWhereID
  cases s.fault with
  | some m => rfl
  | none =>
    cases s.users with
    | none => rfl
    | some t =>
      simp only
      cases (coerce id).bind (fun n => t.rows.find? (fun r => r.ID == n)) <;> rfl

theorem listUsers_eq (s : Store) :
    listUsers s =
      match (scanUsersOrderByID .nil s).1 with
      | .error err => (⟨500, .error err.Error⟩, s)
      | .ok users => (⟨200, marshalUsers users⟩, s) := by
  have h := scanUsersOrderByID_store .nil s
  rcases hr : scanUsersOrderByID .nil s with ⟨r, s1⟩
  rw [hr] at h
  simp only at h
  subst h
  simp only [listUsers, hr]
  cases r <;> rfl

theorem getUser_eq (coerce : String → Option Int) (id : String) (s : Store) :
    getUser coerce id s =
      match (scanUserWhereID coerce id User.zero s).1 with
      | .error .ErrNoRows => (⟨404, .error "not found"⟩, s)
      | .error (.other m) => (⟨500, .error m⟩, s)
      | .ok user => (⟨200, .user user⟩, s) := by
  have h := scanUserWhereID_store coerce id User.zero s
  rcases hr : scanUserWhereID coerce id User.zero s with ⟨r, s1⟩
  rw [hr] at h
  simp only at h
  subst h
  simp only [getUser, hr]
  rcases r with (_ | m) | u <;> rfl

theorem scanUserWhereID_healthy (coerce : String → Option Int) (id : String) (dest : User)
    (s : Store) (t : Table) (hf : s.fault = none) (ht : s.users = some t) :
    scanUserWhereID coerce id dest s =
      match (coerce id).bind (fun n => t.rows.find? (fun r => r.ID == n)) with
      | none => (.error .ErrNoRows, s)
      | some row => (.ok row, s) := by
  unfold scanUserWhereID
  rw [hf, ht]

/-- C2: Get by ID answers by the outcome of its query.  `sql.ErrNoRows` gives 404 with the
body "not found"; any other storage error gives 500 with that error's message; a row gives
200 with that user.  On a store that answers, an identifier no row matches gives 404, and an
identifier some row matches gives 200 with a row of that key. -/
theorem getUser_by_outcome (coerce : String → Option Int) (id : String) (s : Store) :
    ((scanUserWhereID coerce id User.zero s).1 = .error .ErrNoRows →
        getUser coerce id s = (⟨404, .error "not found"⟩, s)) ∧
      (∀ m, (scanUserWhereID coerce id User.zero s).1 = .error (.other m) →
        getUser coerce id s = (⟨500, .error (GoError.other m).Error⟩, s)) ∧
      (∀ u, (scanUserWhereID coerce id User.zero s).1 = .ok u →
        getUser coerce id s = (⟨200, .user u⟩, s)) ∧
      (∀ t, s.fault = none → s.users = some t → (∀ r ∈ t.rows, coerce id ≠ some r.ID) →
        getUser coerce id s = (⟨404, .error "not found"⟩, s)) ∧
      (∀ t r, s.fault = none → s.users = some t → r ∈ t.rows → coerce id = some r.ID →
        ∃ u ∈ t.rows, coerce id = some u.ID ∧ getUser coerce id s = (⟨200, .user u⟩, s)) := by
  refine ⟨?_, ?_, ?_, ?_, ?_⟩
  · intro h
    rw [getUser_eq, h]
  · intro m h
    rw [getUser_eq, h]
    rfl
  · intro u h
    rw [getUser_eq, h]
  · intro t hf ht hno
    rw [getUser_eq, scanUserWhereID_healthy coerce id _ s t hf ht]
    cases hc : coerce id with
    | none => rfl
    | some n =>
      have hfind : t.rows.find? (fun r => r.ID == n) = none := by
        rw [List.find?_eq_none]
        intro r hr hrn
        exact hno r hr (by rw [hc]; simp at hrn; rw [hrn])
      simp [hfind]
  · intro t r hf ht hr hc
    rw [getUser_eq, scanUserWhereID_healthy coerce id _ s t hf ht, hc]
    cases hfind : t.rows.find? (fun x => x.ID == r.ID) with
    | none =>
      rw [List.find?_eq_none] at hfind
      exact absurd (by simp) (hfind r hr)
    | some u =>
      have hu := List.mem_of_find?_eq_some hfind
      have hid := List.find?_some hfind
      simp at hid
      exact ⟨u, hu, by rw [hid], by simp [hfind]⟩

/-- C2 at the spec's example: the identifier "999999" on a store holding one user. -/
theorem getUser_by_outcome_witness :
    getUser readDecimal "999999" (createUser sampleValidator adaNow adaBody freshStore).2
      = (⟨404, .error "not found"⟩, (createUser sampleValidator adaNow adaBody freshStore).2) :=
  (getUser_by_outcome readDecimal "999999"
    (createUser sampleValidator adaNow adaBody freshStore).2).2.2.2.1
    ⟨[storedRow ada], 1⟩ (by decide) (by decide) (by decide)

/-! ## Create -/

theorem storedTime_idem (t : Time) : storedTime (storedTime t) = storedTime t := by
  simp only [storedTime, Time.mk.injEq]
  omega

theorem storedTime_exact (t : Time) (h : t.nanos % 1000 = 0) : storedTime t = t := by
  cases t with
  | mk n =>
    simp only [storedTime, Time.mk.injEq] at h ⊢
    omega

theorem storedRow_exact (u : User) (h : u.CreatedAt.nanos % 1000 = 0) : storedRow u = u := by
  cases u with
  | mk id name email t => simp [storedRow, storedTime_exact t h]

theorem storedRow_ID (u : User) : (storedRow u).ID = u.ID := rfl

theorem execInsert_zero (name email : String) (now : Time) (s : Store) :
    execInsert ⟨0, name, email, now⟩ s =
      match s.fault with
      | some msg => (.error (.other msg), s)
      | none =>
        match s.users with
        | none => (.error (.other noSuchTable), s)
        | some t =>
          if maxInt64 < nextID t then (.error (.other databaseFull), s)
          else
            (.ok ⟨nextID t, name, email,
                if now.IsZero then storedTime s.currentTimestamp else now⟩,
              { s with users := some ⟨t.rows ++
                [⟨nextID t, name, email,
                  storedTime (if now.IsZero then s.currentTimestamp else now)⟩],
                (nextID t).toNat⟩ }) := by
  unfold execInsert
  cases s.fault with
  | some m => rfl
  | none =>
    cases s.users with
    | none => rfl
    | some t => by_cases hz : now.IsZero = true <;> simp [hz]

theorem execInsert_error_store (user : User) (s : Store) (err : GoError)
    (h : (execInsert user s).1 = .error err) : (execInsert user s).2 = s := by
  unfold execInsert at h ⊢
  cases hf : s.fault with
  | some m => rfl
  | none =>
    cases hu : s.users with
    | none => rfl
    | some t =>
      rw [hf, hu] at h
      simp only at h ⊢
      by_cases h0 : user.ID = 0
      · rw [if_pos h0] at h ⊢
        by_cases hfull : maxInt64 < nextID t
        · rw [if_pos hfull]
        · rw [if_neg hfull] at h; simp at h
      · rw [if_neg h0] at h ⊢
        by_cases hany : (t.rows.any fun r => r.ID == user.ID) = true
        · rw [if_pos hany]
        · rw [if_neg hany] at h; simp at h

theorem afterRows_pos (rows : List User) : 1 ≤ afterRows rows := by
  induction rows with
  | nil => simp [afterRows]
  | cons r rs ih => simp only [afterRows]; omega

theorem lt_afterRows (rows : List User) (r : User) (h : r ∈ rows) : r.ID < afterRows rows := by
  induction rows with
  | nil => simp at h
  | cons x xs ih =>
    simp only [afterRows]
    rcases List.mem_cons.mp h with h | h
    · subst h; omega
    · have := ih h; omega

theorem nextID_pos (t : Table) : 0 < nextID t := by
  unfold nextID; omega

theorem seq_lt_nextID (t : Table) : (t.seq : Int) < nextID t := by
  unfold nextID; omega

theorem lt_nextID (t : Table) (r : User) (h : r ∈ t.rows) : r.ID < nextID t := by
  have := lt_afterRows t.rows r h
  unfold nextID; omega

/-- What a successful insert of a keyless user did: the struct comes back with its key, the
table has one row more, the struct as the store keeps it. -/
theorem execInsert_ok (name email : String) (now : Time) (s s1 : Store) (u : User)
    (h : execInsert ⟨0, name, email, now⟩ s = (.ok u, s1)) :
    ∃ t, s.fault = none ∧ s.users = some t ∧ nextID t ≤ maxInt64 ∧
      u = ⟨nextID t, name, email, if now.IsZero then storedTime s.currentTimestamp else now⟩ ∧
      s1 = { s with users := some ⟨t.rows ++ [storedRow u], (nextID t).toNat⟩ } := by
  rw [execInsert_zero] at h
  cases hf : s.fault with
  | some m => rw [hf] at h; simp at h
  | none =>
    cases hu : s.users with
    | none => rw [hf, hu] at h; simp at h
    | some t =>
      rw [hf, hu] at h
      simp only at h
      by_cases hfull : maxInt64 < nextID t
      · rw [if_pos hfull] at h; simp at h
      · rw [if_neg hfull] at h
        simp only [Prod.mk.injEq, Except.ok.injEq] at h
        obtain ⟨h1, h2⟩ := h
        refine ⟨t, rfl, rfl, by omega, h1.symm, ?_⟩
        rw [← h2, ← h1]
        by_cases hz : now.IsZero = true
        · simp [storedRow, hz, storedTime_idem]
        · simp [storedRow, hz]

/-- C3, as amended: a valid Create on which the insert succeeds is answered 201 with the
created user: name and email as sent, the timestamp read at the request, the key the store
assigned (positive, so not the zero value the struct had).  The store holds its former rows
followed by exactly one new row: that user with the timestamp cut to the microseconds the
store keeps, which is the returned user itself when the timestamp has nothing below a
microsecond. -/
theorem createUser_created (v : Validator) (now : Time) (name email : String) (s s1 : Store)
    (u : User) (hn : name ≠ "") (he : email ≠ "") (hv : v.isEmail email = true)
    (hnow : now.IsZero = false)
    (hins : execInsert ⟨0, name, email, now⟩ s = (.ok u, s1)) :
    createUser v now (.object (some name) (some email)) s = (⟨201, .user u⟩, s1) ∧
      u.Name = name ∧ u.Email = email ∧ u.CreatedAt = now ∧ u.CreatedAt.IsZero = false ∧
      u.ID ≠ 0 ∧ 0 < u.ID ∧
      (∃ t, s.users = some t ∧ u.ID = nextID t) ∧
      s1.rows = s.rows ++ [⟨u.ID, u.Name, u.Email, storedTime u.CreatedAt⟩] ∧
      (now.nanos % 1000 = 0 → s1.rows = s.rows ++ [u]) ∧
      s1.rows.length = s.rows.length + 1 ∧ s1.fault = s.fault := by
  obtain ⟨t, hf, hu, hle, hrow, hs1⟩ := execInsert_ok name email now s s1 u hins
  have hpos := nextID_pos t
  have hc : createUser v now (.object (some name) (some email)) s = (⟨201, .user u⟩, s1) := by
    simp only [createUser, shouldBindJSON_valid v name email hn he hv, hins, StatusCreated]
  have hrows : s1.rows = s.rows ++ [storedRow u] := by
    rw [hs1]; simp [Store.rows, hu]
  have hat : u.CreatedAt = now := by rw [hrow]; simp [hnow]
  refine ⟨hc, ?_, ?_, hat, ?_, ?_, ?_, ⟨t, hu, ?_⟩, hrows, ?_, ?_, ?_⟩
  · rw [hrow]
  · rw [hrow]
  · rw [hat]; exact hnow
  · rw [hrow]; simp only; omega
  · rw [hrow]; simp only; omega
  · rw [hrow]
  · intro hex
    rw [hrows, storedRow_exact u (by rw [hat]; exact hex)]
  · rw [hrows]; simp
  · rw [hs1]

/-- C3, as amended, at the spec's scenario: Ada on a fresh store, at a reading of the clock
with digits below the microsecond.  The answer carries the reading, the row the reading cut
to microseconds. -/
theorem createUser_created_witness :
    createUser sampleValidator adaNow (.object (some "Ada") (some "ada@example.com")) freshStore
        = (⟨201, .user ⟨1, "Ada", "ada@example.com", ⟨63929382566985792055⟩⟩⟩,
            ⟨none, some ⟨[⟨1, "Ada", "ada@example.com", ⟨63929382566985792000⟩⟩], 1⟩,
              ⟨1000⟩⟩) :=
  (createUser_created sampleValidator adaNow "Ada" "ada@example.com" freshStore
    ⟨none, some ⟨[⟨1, "Ada", "ada@example.com", ⟨63929382566985792000⟩⟩], 1⟩, ⟨1000⟩⟩
    ⟨1, "Ada", "ada@example.com", ⟨63929382566985792055⟩⟩ (by decide) (by decide) (by decide)
    (by decide) rfl).1

/-- C3 as the claim states it fails: at a reading of the clock with digits below the
microsecond, Ada is created on a fresh store with 201, and the one row the store then holds
is not the user that was returned: it differs in the timestamp. -/
theorem createUser_row_differs :
    createUser sampleValidator adaNow adaBody freshStore
        = (⟨201, .user ada⟩, (createUser sampleValidator adaNow adaBody freshStore).2) ∧
      (createUser sampleValidator adaNow adaBody freshStore).2.rows
        = [⟨1, "Ada", "ada@example.com", ⟨63929382566985792000⟩⟩] ∧
      (createUser sampleValidator adaNow adaBody freshStore).2.rows ≠ freshStore.rows ++ [ada] := by
  decide
/-! ## Storage errors, schema, frame -/

theorem createUser_eq (v : Validator) (now : Time) (body : RawBody) (s : Store)
    (inp : CreateInput) (hb : shouldBindJSON v body = .ok inp) :
    createUser v now body s =
      match (execInsert ⟨0, inp.Name, inp.Email, now⟩ s).1 with
      | .error err => (⟨500, .error err.Error⟩, s)
      | .ok user => (⟨201, .user user⟩, (execInsert ⟨0, inp.Name, inp.Email, now⟩ s).2) := by
  simp only [createUser, hb]
  rcases hr : execInsert ⟨0, inp.Name, inp.Email, now⟩ s with ⟨r, s1⟩
  cases r with
  | error e =>
    have := execInsert_error_store ⟨0, inp.Name, inp.Email, now⟩ s e (by rw [hr])
    rw [hr] at this
    simp only at this
    subst this
    rfl
  | ok u => rfl

/-- C8: when the storage call of List or of Create returns an error, the handler returns
with status 500 and an error object holding that error's message as it is, and the store is
handed back unchanged.  For a Create whose body passed validation the status is 201 exactly
when the insert succeeded and 500 otherwise. -/
theorem storage_error_is_500 (v : Validator) (now : Time) (body : RawBody) (s : Store) :
    (∀ err, (scanUsersOrderByID .nil s).1 = .error err →
        listUsers s = (⟨500, .error err.Error⟩, s)) ∧
      (∀ inp err, shouldBindJSON v body = .ok inp →
        (execInsert ⟨0, inp.Name, inp.Email, now⟩ s).1 = .error err →
        createUser v now body s = (⟨500, .error err.Error⟩, s)) ∧
      (∀ inp, shouldBindJSON v body = .ok inp →
        ((createUser v now body s).1.status = 201 ↔
          ∃ u, (execInsert ⟨0, inp.Name, inp.Email, now⟩ s).1 = .ok u) ∧
        ((createUser v now body s).1.status = 500 ↔
          ∃ err, (execInsert ⟨0, inp.Name, inp.Email, now⟩ s).1 = .error err) ∧
        ((createUser v now body s).1.status = 201 ∨
          (createUser v now body s).1.status = 500)) := by
  refine ⟨?_, ?_, ?_⟩
  · intro err h
    rw [listUsers_eq, h]
  · intro inp err hb h
    rw [createUser_eq v now body s inp hb, h]
  · intro inp hb
    rw [createUser_eq v now body s inp hb]
    cases h : (execInsert ⟨0, inp.Name, inp.Email, now⟩ s).1 with
    | error e => simp
    | ok u => simp

/-- C8 on a store that rejects every statement: both handlers answer 500 with the
message of the store. -/
theorem storage_error_is_500_witness :
    listUsers ⟨some "unable to open database file", none, ⟨0⟩⟩
        = (⟨500, .error "unable to open database file"⟩,
            ⟨some "unable to open database file", none, ⟨0⟩⟩) ∧
      createUser sampleValidator adaNow adaBody ⟨some "unable to open database file", none, ⟨0⟩⟩
        = (⟨500, .error "unable to open database file"⟩,
            ⟨some "unable to open database file", none, ⟨0⟩⟩) :=
  ⟨(storage_error_is_500 sampleValidator adaNow adaBody
      ⟨some "unable to open database file", none, ⟨0⟩⟩).1
      (.other "unable to open database file") rfl,
    (storage_error_is_500 sampleValidator adaNow adaBody
      ⟨some "unable to open database file", none, ⟨0⟩⟩).2.1
      ⟨"Ada", "ada@example.com"⟩ (.other "unable to open database file") rfl rfl⟩

/-- C9: schema initialisation is idempotent.  When a first call returns no error, the
store it leaves has the users table, holds the rows it held before, and a second call on it
returns no error and leaves that same store. -/
theorem InitUserModel_idempotent (s s1 : Store) (h : InitUserModel s = (none, s1)) :
    InitUserModel s1 = (none, s1) ∧
      (∃ t, s1.users = some t) ∧
      s1.rows = s.rows ∧
      (∀ t, s.users = some t → s1 = s) ∧
      (s.users = none → s1.users = some ⟨[], 0⟩) := by
  unfold InitUserModel execCreateTableIfNotExists at h
  cases hf : s.fault with
  | some m => rw [hf] at h; simp at h
  | none =>
    cases hu : s.users with
    | some t =>
      rw [hf, hu] at h
      simp only [Prod.mk.injEq, true_and] at h
      subst h
      refine ⟨?_, ⟨t, hu⟩, rfl, fun _ _ => rfl, fun h => by simp at h⟩
      simp [InitUserModel, execCreateTableIfNotExists, hf, hu]
    | none =>
      rw [hf, hu] at h
      simp only [Prod.mk.injEq, true_and] at h
      subst h
      refine ⟨?_, ⟨_, rfl⟩, ?_, fun t ht => by simp at ht, fun _ => rfl⟩
      · simp [InitUserModel, execCreateTableIfNotExists, hf]
      · simp [Store.rows, hu]

/-- C9 on a store without the table and on the store that call leaves. -/
theorem InitUserModel_idempotent_witness :
    InitUserModel freshStore = (none, freshStore) ∧
      InitUserModel (createUser sampleValidator adaNow adaBody freshStore).2
        = (none, (createUser sampleValidator adaNow adaBody freshStore).2) :=
  ⟨(InitUserModel_idempotent ⟨none, none, ⟨1000⟩⟩ freshStore rfl).1,
    (InitUserModel_idempotent (createUser sampleValidator adaNow adaBody freshStore).2
      (createUser sampleValidator adaNow adaBody freshStore).2 rfl).1⟩

theorem listUsers_store (s : Store) : (listUsers s).2 = s := by
  rw [listUsers_eq]
  cases (scanUsersOrderByID .nil s).1 <;> rfl

theorem getUser_store (coerce : String → Option Int) (id : String) (s : Store) :
    (getUser coerce id s).2 = s := by
  rw [getUser_eq]
  rcases (scanUserWhereID coerce id User.zero s).1 with (_ | m) | u <;> rfl

/-- What Create does to the store: nothing, or one row more, the user it answers with as
the store keeps it. -/
theorem createUser_store (v : Validator) (now : Time) (body : RawBody) (s : Store) :
    (createUser v now body s).2 = s ∨
      ∃ t u, s.fault = none ∧ s.users = some t ∧ u.ID = nextID t ∧ nextID t ≤ maxInt64 ∧
        createUser v now body s =
          (⟨201, .user u⟩,
            { s with users := some ⟨t.rows ++ [storedRow u], (nextID t).toNat⟩ }) := by
  cases hb : shouldBindJSON v body with
  | error msg => left; simp [createUser, hb]
  | ok inp =>
    rw [createUser_eq v now body s inp hb]
    rcases hr : execInsert ⟨0, inp.Name, inp.Email, now⟩ s with ⟨r, s1⟩
    cases r with
    | error e => left; rfl
    | ok u =>
      right
      obtain ⟨t, hf, hu, hle, hrow, hs1⟩ := execInsert_ok _ _ _ _ _ _ hr
      refine ⟨t, u, hf, hu, by rw [hrow], hle, ?_⟩
      simp only
      rw [hs1]

/-- C10: List and Get by ID hand the store back as they got it, whatever they answer;
Create either leaves the store as it was or appends one row, the user it returns with 201
as the store keeps it, behind the rows that were there, which stay as they were. -/
theorem handlers_frame (v : Validator) (coerce : String → Option Int) (now : Time)
    (body : RawBody) (id : String) (s : Store) :
    (listUsers s).2 = s ∧
      (getUser coerce id s).2 = s ∧
      ((createUser v now body s).2 = s ∨
        ∃ u, (createUser v now body s).1 = ⟨201, .user u⟩ ∧
          (createUser v now body s).2.rows = s.rows ++ [storedRow u]) ∧
      (∃ added, (createUser v now body s).2.rows = s.rows ++ added ∧ added.length ≤ 1) ∧
      (createUser v now body s).2.fault = s.fault ∧
      (createUser v now body s).2.currentTimestamp = s.currentTimestamp := by
  refine ⟨listUsers_store s, getUser_store coerce id s, ?_, ?_, ?_, ?_⟩
  · rcases createUser_store v now body s with h | ⟨t, u, hf, hu, hid, hle, h⟩
    · exact Or.inl h
    · right
      refine ⟨u, by rw [h], ?_⟩
      rw [h]; simp [Store.rows, hu]
  · rcases createUser_store v now body s with h | ⟨t, u, hf, hu, hid, hle, h⟩
    · exact ⟨[], by rw [h]; simp, by simp⟩
    · refine ⟨[storedRow u], ?_, by simp⟩
      rw [h]; simp [Store.rows, hu]
  · rcases createUser_store v now body s with h | ⟨t, u, hf, hu, hid, hle, h⟩
    · rw [h]
    · rw [h]
  · rcases createUser_store v now body s with h | ⟨t, u, hf, hu, hid, hle, h⟩
    · rw [h]
    · rw [h]

/-! ## List -/

theorem UserSlice.toList_nil_append (l : List User) :
    (UserSlice.nil.reset.append l).toList = l := by
  cases l <;> rfl

theorem orderByID_perm (rows : List User) : (orderByID rows).Perm rows :=
  List.perm_insertionSort _ rows

theorem orderByID_sorted (rows : List User) :
    (orderByID rows).Pairwise (fun a b => a.ID ≤ b.ID) := by
  haveI : IsTotal User (fun a b => a.ID ≤ b.ID) := ⟨fun a b => le_total a.ID b.ID⟩
  haveI : IsTrans User (fun a b => a.ID ≤ b.ID) := ⟨fun _ _ _ h1 h2 => le_trans h1 h2⟩
  exact List.sorted_insertionSort (fun a b => a.ID ≤ b.ID) rows

theorem scanUsersOrderByID_ok (s : Store) (us : UserSlice)
    (h : (scanUsersOrderByID .nil s).1 = .ok us) :
    ∃ t, s.fault = none ∧ s.users = some t ∧ us = UserSlice.nil.reset.append (orderByID t.rows) := by
  unfold scanUsersOrderByID at h
  cases hf : s.fault with
  | some m => rw [hf] at h; simp at h
  | none =>
    cases hu : s.users with
    | none => rw [hf, hu] at h; simp at h
    | some t =>
      rw [hf, hu] at h
      simp only [Except.ok.injEq] at h
      exact ⟨t, rfl, rfl, h.symm⟩

/-- C6: on a store whose query succeeds, List answers 200 with the users of the store, each
as often as the store holds it, in ascending key order: of two adjacent users of the answer
the first key is at most the second, and so is that of any earlier and later user. -/
theorem listUsers_sorted (s : Store) (us : UserSlice)
    (h : (scanUsersOrderByID .nil s).1 = .ok us) :
    listUsers s = (⟨200, marshalUsers us⟩, s) ∧
      us.toList.Perm s.rows ∧
      us.toList.Chain' (fun a b => a.ID ≤ b.ID) ∧
      us.toList.Pairwise (fun a b => a.ID ≤ b.ID) := by
  obtain ⟨t, hf, hu, hus⟩ := scanUsersOrderByID_ok s us h
  have hl : us.toList = orderByID t.rows := by
    rw [hus, UserSlice.toList_nil_append]
  have hrows : s.rows = t.rows := by simp [Store.rows, hu]
  refine ⟨by rw [listUsers_eq, h], ?_, ?_, ?_⟩
  · rw [hl, hrows]; exact orderByID_perm t.rows
  · rw [hl]; exact (orderByID_sorted t.rows).chain'
  · rw [hl]; exact orderByID_sorted t.rows

/-- C6 on a store whose rows are not kept in key order. -/
theorem listUsers_sorted_witness :
    listUsers ⟨none, some ⟨[⟨2, "Bo", "bo@example.com", ⟨7000⟩⟩, ⟨1, "Ada", "ada@example.com", ⟨5000⟩⟩], 2⟩,
        ⟨9000⟩⟩
      = (⟨200, .users [⟨1, "Ada", "ada@example.com", ⟨5000⟩⟩, ⟨2, "Bo", "bo@example.com", ⟨7000⟩⟩]⟩,
          ⟨none, some ⟨[⟨2, "Bo", "bo@example.com", ⟨7000⟩⟩, ⟨1, "Ada", "ada@example.com", ⟨5000⟩⟩], 2⟩,
            ⟨9000⟩⟩) :=
  (listUsers_sorted
    ⟨none, some ⟨[⟨2, "Bo", "bo@example.com", ⟨7000⟩⟩, ⟨1, "Ada", "ada@example.com", ⟨5000⟩⟩], 2⟩, ⟨9000⟩⟩
    (.of [⟨1, "Ada", "ada@example.com", ⟨5000⟩⟩, ⟨2, "Bo", "bo@example.com", ⟨7000⟩⟩]) rfl).1

/-- C7: on the fresh store, whose users table is empty, List answers 200 with the body
`null`: the slice is declared nil, the scan appends nothing to it, and a nil slice is
encoded as `null`, which is not the empty array. -/
theorem listUsers_empty_is_null :
    listUsers freshStore = (⟨200, .null⟩, freshStore) ∧
      (listUsers freshStore).1.body ≠ .users [] := by
  decide

/-- What a 201 from Create says about the store before and after. -/
theorem createUser_201 (v : Validator) (now : Time) (body : RawBody) (s s1 : Store) (u : User)
    (h : createUser v now body s = (⟨201, .user u⟩, s1)) :
    ∃ t, s.fault = none ∧ s.users = some t ∧ u.ID = nextID t ∧ nextID t ≤ maxInt64 ∧
      s1 = { s with users := some ⟨t.rows ++ [storedRow u], (nextID t).toNat⟩ } := by
  cases hb : shouldBindJSON v body with
  | error msg => simp [createUser, hb, StatusBadRequest] at h
  | ok inp =>
    rw [createUser_eq v now body s inp hb] at h
    rcases hr : execInsert ⟨0, inp.Name, inp.Email, now⟩ s with ⟨r, s2⟩
    rw [hr] at h
    cases r with
    | error e => simp at h
    | ok u2 =>
      simp only [Prod.mk.injEq, Response.mk.injEq, true_and, Body.user.injEq] at h
      obtain ⟨hu2, hs2⟩ := h
      subst hu2 hs2
      obtain ⟨t, hf, hu, hle, hrow, hs1⟩ := execInsert_ok _ _ _ _ _ _ hr
      exact ⟨t, hf, hu, by rw [hrow], hle, hs1⟩

/-- After one successful Create on the fresh store, List answers with an array of one
element: the created user as the store keeps it, its timestamp cut to microseconds. -/
theorem listUsers_after_first_create (v : Validator) (now : Time) (body : RawBody) (u : User)
    (s1 : Store) (h : createUser v now body freshStore = (⟨201, .user u⟩, s1)) :
    listUsers s1 = (⟨200, .users [storedRow u]⟩, s1) := by
  obtain ⟨t, hf, hu, hid, hle, hs1⟩ := createUser_201 v now body freshStore s1 u h
  have hfresh : freshStore.users = some ⟨[], 0⟩ := rfl
  rw [hfresh] at hu
  have ht : t = ⟨[], 0⟩ := by injection hu with hu; exact hu.symm
  subst ht
  rw [hs1, listUsers_eq]
  simp [scanUsersOrderByID, freshStore, InitUserModel, execCreateTableIfNotExists, orderByID,
    UserSlice.reset, UserSlice.append, marshalUsers]

/-! ## Keys along a run -/

theorem removeRow_seq (id : Int) (s : Store) : (removeRow id s).seq = s.seq := by
  unfold removeRow Store.seq
  cases hu : s.users with
  | none => simp [hu]
  | some t => simp

theorem removeRow_rows (id : Int) (s : Store) : (removeRow id s).rows.Sublist s.rows := by
  unfold removeRow Store.rows
  cases hu : s.users with
  | none => simp [hu]
  | some t => simp

/-- What a 201 from Create says about the key it returns. -/
theorem createUser_201_key (v : Validator) (now : Time) (body : RawBody) (s s1 : Store)
    (u : User) (h : createUser v now body s = (⟨201, .user u⟩, s1)) :
    0 < u.ID ∧ u.ID ≤ maxInt64 ∧ (s.seq : Int) < u.ID ∧ (∀ r ∈ s.rows, r.ID < u.ID) ∧
      s1.rows = s.rows ++ [storedRow u] ∧ (s1.seq : Int) = u.ID := by
  obtain ⟨t, hf, hu, hid, hle, hs1⟩ := createUser_201 v now body s s1 u h
  have hpos := nextID_pos t
  have hseq := seq_lt_nextID t
  refine ⟨by omega, by omega, ?_, ?_, ?_, ?_⟩
  · simp only [Store.seq, hu]; omega
  · intro r hr
    simp only [Store.rows, hu] at hr
    have := lt_nextID t r hr
    omega
  · rw [hs1]; simp [Store.rows, hu]
  · rw [hs1]; simp only [Store.seq]; omega

/-- A response of Create either carries no created user and the store is as before, or it
is a 201 with a user. -/
theorem createUser_cases (v : Validator) (now : Time) (body : RawBody) (s : Store) :
    (createdUser (createUser v now body s).1 = none ∧ (createUser v now body s).2 = s) ∨
      ∃ u s1, createUser v now body s = (⟨201, .user u⟩, s1) ∧
        createdUser (createUser v now body s).1 = some u := by
  cases hb : shouldBindJSON v body with
  | error msg =>
    left
    simp [createUser, hb, createdUser, StatusBadRequest, StatusCreated]
  | ok inp =>
    rw [createUser_eq v now body s inp hb]
    cases (execInsert ⟨0, inp.Name, inp.Email, now⟩ s).1 with
    | error e => left; simp [createdUser, StatusCreated]
    | ok u => right; exact ⟨u, _, rfl, by simp [createdUser, StatusCreated]⟩

theorem run_facts (v : Validator) : ∀ (acts : List Action) (s : Store),
    (run v acts s).1.Pairwise (fun a b => a.ID < b.ID) ∧
      (∀ u ∈ (run v acts s).1, 0 < u.ID ∧ u.ID ≤ maxInt64 ∧ (s.seq : Int) < u.ID) ∧
      ∃ l1 l2, (run v acts s).2.rows = l1 ++ l2 ∧ l1.Sublist s.rows ∧
        l2.Sublist ((run v acts s).1.map storedRow) ∧
        ∀ r ∈ l1, ∀ u ∈ (run v acts s).1, r.ID < u.ID := by
  intro acts
  induction acts with
  | nil =>
    intro s
    refine ⟨by simp [run], by simp [run], s.rows, [], by simp [run], List.Sublist.refl _,
      by simp [run], by simp [run]⟩
  | cons a rest ih =>
    intro s
    cases a with
    | remove id =>
      obtain ⟨h1, h2, l1, l2, h3, h4, h5, h6⟩ := ih (removeRow id s)
      simp only [run]
      refine ⟨h1, ?_, l1, l2, h3, h4.trans (removeRow_rows id s), h5, h6⟩
      intro u hu
      have := h2 u hu
      rw [removeRow_seq] at this
      exact this
    | create now body =>
      rcases createUser_cases v now body s with ⟨hnone, hs⟩ | ⟨u, s1, hc, hsome⟩
      · have hrun : run v (.create now body :: rest) s = run v rest s := by
          simp only [run, hnone, hs, Option.toList, List.nil_append]
        rw [hrun]
        exact ih s
      · have hrun : run v (.create now body :: rest) s
            = (u :: (run v rest s1).1, (run v rest s1).2) := by
          rw [hc] at hsome
          simp only at hsome
          simp only [run, hc, hsome, Option.toList, List.singleton_append]
        obtain ⟨hpos, hmax, hseq, hrows, hs1rows, hs1seq⟩ :=
          createUser_201_key v now body s s1 u hc
        obtain ⟨h1, h2, m1, m2, h3, h4, h5, h6⟩ := ih s1
        rw [hrun]
        simp only
        refine ⟨?_, ?_, ?_⟩
        · rw [List.pairwise_cons]
          refine ⟨?_, h1⟩
          intro w hw
          have := (h2 w hw).2.2
          omega
        · intro w hw
          rcases List.mem_cons.mp hw with hw | hw
          · subst hw; exact ⟨hpos, hmax, hseq⟩
          · have := h2 w hw
            exact ⟨this.1, this.2.1, by omega⟩
        · rw [hs1rows] at h4
          obtain ⟨a, b, hab, ha, hb⟩ := List.sublist_append_iff.mp h4
          refine ⟨a, b ++ m2, ?_, ha, ?_, ?_⟩
          · rw [h3, hab, List.append_assoc]
          · have := List.Sublist.append hb h5
            simpa using this
          · intro r hr w hw
            rcases List.mem_cons.mp hw with hw | hw
            · subst hw; exact hrows r (ha.subset hr)
            · exact h6 r (by rw [hab]; exact List.mem_append_left _ hr) w hw

theorem filter_key_of_pairwise : ∀ (us : List User) (u : User),
    us.Pairwise (fun a b => a.ID < b.ID) → u ∈ us →
    us.filter (fun r => r.ID == u.ID) = [u] := by
  intro us
  induction us with
  | nil => intro u _ h; simp at h
  | cons x xs ih =>
    intro u hp hu
    rw [List.pairwise_cons] at hp
    rcases List.mem_cons.mp hu with hux | hux
    · subst hux
      have : xs.filter (fun r => r.ID == u.ID) = [] := by
        rw [List.filter_eq_nil_iff]
        intro y hy
        have := hp.1 y hy
        simp; omega
      simp [List.filter_cons, this]
    · have hlt := hp.1 u hux
      have hne : ¬ (x.ID == u.ID) = true := by simp; omega
      rw [List.filter_cons, if_neg hne]
      exact ih u hp.2 hux

theorem filter_key_of_stored (us : List User) (u : User)
    (hp : us.Pairwise (fun a b => a.ID < b.ID)) (hu : u ∈ us) :
    (us.map storedRow).filter (fun r => r.ID == u.ID) = [storedRow u] := by
  rw [List.filter_map]
  have : ((fun r : User => r.ID == u.ID) ∘ storedRow) = (fun r : User => r.ID == u.ID) := by
    funext r; rfl
  rw [this, filter_key_of_pairwise us u hp hu]
  rfl

/-- C4: along any run of Create requests and removals of rows, from any store, the users
the successful Creates return have keys that strictly increase in the order of creation,
each positive, each larger than every key the table had held before the run (removed rows
included), and at most one row of the store carries the key of a created user, the row
kept for that user.  At each Create answered 201 the key is larger than the key of every
row in the store. -/
theorem created_keys_increase (v : Validator) (acts : List Action) (s : Store) :
    (run v acts s).1.Pairwise (fun a b => a.ID < b.ID) ∧
      (∀ u ∈ (run v acts s).1, 0 < u.ID ∧ u.ID ≤ maxInt64 ∧ (s.seq : Int) < u.ID) ∧
      (∀ u ∈ (run v acts s).1,
        ((run v acts s).2.rows.filter (fun r => r.ID == u.ID)).Sublist [storedRow u]) ∧
      (∀ now body u s1, createUser v now body s = (⟨201, .user u⟩, s1) →
        0 < u.ID ∧ (s.seq : Int) < u.ID ∧ (∀ r ∈ s.rows, r.ID < u.ID) ∧
          s1.rows = s.rows ++ [storedRow u] ∧ (s1.seq : Int) = u.ID ∧
          ∀ id, (removeRow id s1).seq = s1.seq) := by
  obtain ⟨h1, h2, l1, l2, h3, h4, h5, h6⟩ := run_facts v acts s
  refine ⟨h1, h2, ?_, ?_⟩
  · intro u hu
    have hl1 : l1.filter (fun r => r.ID == u.ID) = [] := by
      rw [List.filter_eq_nil_iff]
      intro r hr
      have := h6 r hr u hu
      simp; omega
    rw [h3, List.filter_append, hl1, List.nil_append,
      ← filter_key_of_stored (run v acts s).1 u h1 hu]
    exact h5.filter _
  · intro now body u s1 hc
    obtain ⟨hpos, hmax, hseq, hrows, hs1rows, hs1seq⟩ := createUser_201_key v now body s s1 u hc
    exact ⟨hpos, hseq, hrows, hs1rows, hs1seq, fun id => removeRow_seq id s1⟩

/-- C4 on a run from the fresh store: Ada is created, her row is removed, two more users
are created; the keys handed out are 1, 2 and 3, the key of the removed row is not reused. -/
theorem created_keys_increase_witness :
    (run sampleValidator
        [.create adaNow adaBody, .remove 1, .create adaNow adaBody, .create adaNow adaBody]
        freshStore).1.map (fun u => u.ID) = [1, 2, 3] ∧
      (run sampleValidator
        [.create adaNow adaBody, .remove 1, .create adaNow adaBody, .create adaNow adaBody]
        freshStore).1.Pairwise (fun a b => a.ID < b.ID) :=
  ⟨by decide,
    (created_keys_increase sampleValidator
      [.create adaNow adaBody, .remove 1, .create adaNow adaBody, .create adaNow adaBody]
      freshStore).1⟩

/-- The list after the first Create, at the spec's scenario: Ada on a fresh store. -/
theorem listUsers_after_first_create_witness :
    listUsers (createUser sampleValidator adaNow adaBody freshStore).2
      = (⟨200, .users [⟨1, "Ada", "ada@example.com", ⟨63929382566985792000⟩⟩]⟩,
          (createUser sampleValidator adaNow adaBody freshStore).2) :=
  listUsers_after_first_create sampleValidator adaNow adaBody ada
    (createUser sampleValidator adaNow adaBody freshStore).2 rfl

/-! ## Round trip -/

theorem find_created (t : Table) (u : User) (hid : u.ID = nextID t) :
    (t.rows ++ [storedRow u]).find? (fun r => r.ID == u.ID) = some (storedRow u) := by
  have hnone : t.rows.find? (fun r => r.ID == u.ID) = none := by
    rw [List.find?_eq_none]
    intro r hr hru
    have := lt_nextID t r hr
    simp at hru
    omega
  rw [List.find?_append, hnone]
  simp [storedRow]

theorem removeRow_fault (id : Int) (s : Store) : (removeRow id s).fault = s.fault := by
  unfold removeRow
  cases s.users <;> rfl

theorem removeRow_users (id : Int) (s : Store) (h : ∃ t, s.users = some t) :
    ∃ t, (removeRow id s).users = some t := by
  obtain ⟨t, ht⟩ := h
  refine ⟨⟨t.rows.filter (fun r => r.ID != id), t.seq⟩, ?_⟩
  simp [removeRow, ht]

theorem removeRow_find (id k : Int) (s : Store) (hne : id ≠ k) :
    (removeRow id s).rows.find? (fun r => r.ID == k) = s.rows.find? (fun r => r.ID == k) := by
  unfold removeRow Store.rows
  cases hu : s.users with
  | none => simp [hu]
  | some t =>
    simp only [List.find?_filter]
    congr 1
    funext r
    by_cases hr : r.ID = k
    · have : ¬ k = id := fun h => hne h.symm
      simp [hr, this]
    · simp [hr]

theorem createUser_fault (v : Validator) (now : Time) (body : RawBody) (s : Store) :
    (createUser v now body s).2.fault = s.fault := by
  rcases createUser_store v now body s with h | ⟨t, u, hf, hu, hid, hle, h⟩
  · rw [h]
  · rw [h]

theorem createUser_users (v : Validator) (now : Time) (body : RawBody) (s : Store)
    (hs : ∃ t, s.users = some t) : ∃ t, (createUser v now body s).2.users = some t := by
  rcases createUser_store v now body s with h | ⟨t, u, hf, hu, hid, hle, h⟩
  · rw [h]; exact hs
  · rw [h]; exact ⟨_, rfl⟩

theorem createUser_find (v : Validator) (now : Time) (body : RawBody) (s : Store) (k : Int)
    (r : User) (hr : s.rows.find? (fun x => x.ID == k) = some r) :
    (createUser v now body s).2.rows.find? (fun x => x.ID == k) = some r := by
  rcases createUser_store v now body s with h | ⟨t, u, hf, hu, hid, hle, h⟩
  · rw [h]; exact hr
  · rw [h]
    simp only [Store.rows, hu] at hr ⊢
    rw [List.find?_append, hr]
    rfl

/-- A row found under a key stays the row found under that key along a run that does not
remove that key, and the store stays in working order. -/
theorem run_keeps (v : Validator) (k : Int) (r : User) : ∀ (acts : List Action) (s : Store),
    (∀ id, Action.remove id ∈ acts → id ≠ k) → s.fault = none → (∃ t, s.users = some t) →
    s.rows.find? (fun x => x.ID == k) = some r →
    (run v acts s).2.fault = none ∧ (∃ t, (run v acts s).2.users = some t) ∧
      (run v acts s).2.rows.find? (fun x => x.ID == k) = some r := by
  intro acts
  induction acts with
  | nil => intro s _ hf hu hr; exact ⟨hf, hu, hr⟩
  | cons a rest ih =>
    intro s hkeep hf hu hr
    have hrest : ∀ id, Action.remove id ∈ rest → id ≠ k :=
      fun id hid => hkeep id (List.mem_cons_of_mem _ hid)
    cases a with
    | remove id =>
      have hne : id ≠ k := hkeep id (List.mem_cons_self _ _)
      simp only [run]
      exact ih (removeRow id s) hrest (by rw [removeRow_fault]; exact hf)
        (removeRow_users id s hu) (by rw [removeRow_find id k s hne]; exact hr)
    | create now body =>
      simp only [run]
      exact ih (createUser v now body s).2 hrest (by rw [createUser_fault]; exact hf)
        (createUser_users v now body s hu) (createUser_find v now body s k r hr)

theorem getUser_found (coerce : String → Option Int) (id : String) (s : Store) (k : Int)
    (r : User) (hf : s.fault = none) (hu : ∃ t, s.users = some t) (hc : coerce id = some k)
    (hr : s.rows.find? (fun x => x.ID == k) = some r) :
    getUser coerce id s = (⟨200, .user r⟩, s) := by
  obtain ⟨t, ht⟩ := hu
  simp only [Store.rows, ht] at hr
  rw [getUser_eq, scanUserWhereID_healthy coerce id _ s t hf ht, hc]
  simp only [Option.bind]
  rw [hr]

/-- C5, as amended: after a Create answered 201 with a user, and after any further Creates
and removals of other rows, Get by ID with the user's key written in decimal (and read by
the store as that key) answers 200 with a record of the same key, name and email whose
timestamp is the created user's cut to the microseconds the store keeps; that is the very
record Create returned, with the same body, when the timestamp has nothing below a
microsecond.  Get leaves the store as it is and answers the same when asked again. -/
theorem getUser_after_createUser (v : Validator) (coerce : String → Option Int) (now : Time)
    (body : RawBody) (s s1 : Store) (u : User) (acts : List Action)
    (h : createUser v now body s = (⟨201, .user u⟩, s1))
    (hc : coerce (toString u.ID) = some u.ID)
    (hkeep : ∀ id, Action.remove id ∈ acts → id ≠ u.ID) :
    getUser coerce (toString u.ID) (run v acts s1).2
        = (⟨200, .user ⟨u.ID, u.Name, u.Email, storedTime u.CreatedAt⟩⟩, (run v acts s1).2) ∧
      (u.CreatedAt.nanos % 1000 = 0 →
        getUser coerce (toString u.ID) (run v acts s1).2 = (⟨200, .user u⟩, (run v acts s1).2) ∧
        (getUser coerce (toString u.ID) (run v acts s1).2).1.body
          = (createUser v now body s).1.body) ∧
      getUser coerce (toString u.ID) (getUser coerce (toString u.ID) (run v acts s1).2).2
        = (⟨200, .user ⟨u.ID, u.Name, u.Email, storedTime u.CreatedAt⟩⟩, (run v acts s1).2) := by
  obtain ⟨t, hf, hu, hid, hle, hs1⟩ := createUser_201 v now body s s1 u h
  have hf1 : s1.fault = none := by rw [hs1]; exact hf
  have hu1 : ∃ t1, s1.users = some t1 := ⟨_, by rw [hs1]⟩
  have hr1 : s1.rows.find? (fun x => x.ID == u.ID) = some (storedRow u) := by
    rw [hs1]
    simp only [Store.rows]
    exact find_created t u hid
  obtain ⟨hf2, hu2, hr2⟩ := run_keeps v u.ID (storedRow u) acts s1 hkeep hf1 hu1 hr1
  have hg : getUser coerce (toString u.ID) (run v acts s1).2
      = (⟨200, .user (storedRow u)⟩, (run v acts s1).2) :=
    getUser_found coerce _ _ u.ID (storedRow u) hf2 hu2 hc hr2
  refine ⟨hg, ?_, ?_⟩
  · intro hex
    have hsame := storedRow_exact u hex
    rw [hsame] at hg
    exact ⟨hg, by rw [hg, h]⟩
  · rw [hg]
    exact hg

/-- C5, as amended, at the spec's scenario: Ada is created on a fresh store, a second user
is created and removed again, and Ada is read back as "1" with her timestamp cut to
microseconds. -/
theorem getUser_after_createUser_witness :
    getUser readDecimal "1"
        (run sampleValidator [.create adaNow adaBody, .remove 2]
          (createUser sampleValidator adaNow adaBody freshStore).2).2
      = (⟨200, .user ⟨1, "Ada", "ada@example.com", ⟨63929382566985792000⟩⟩⟩,
          (run sampleValidator [.create adaNow adaBody, .remove 2]
            (createUser sampleValidator adaNow adaBody freshStore).2).2) :=
  (getUser_after_createUser sampleValidator readDecimal adaNow adaBody freshStore
    (createUser sampleValidator adaNow adaBody freshStore).2 ada
    [.create adaNow adaBody, .remove 2]
    rfl (by decide) (by intro id hid; simp at hid; subst hid; decide)).1

/-- C5 as the claim states it fails: Ada is created on a fresh store at a reading of the
clock with digits below the microsecond; Get by ID with "1", the decimal form of her key,
answers 200 with a record whose timestamp is not the one Create returned, so the two bodies
differ. -/
theorem getUser_differs_from_created :
    createUser sampleValidator adaNow adaBody freshStore
        = (⟨201, .user ada⟩, (createUser sampleValidator adaNow adaBody freshStore).2) ∧
      toString ada.ID = "1" ∧
      getUser readDecimal "1" (createUser sampleValidator adaNow adaBody freshStore).2
        = (⟨200, .user ⟨1, "Ada", "ada@example.com", ⟨63929382566985792000⟩⟩⟩,
            (createUser sampleValidator adaNow adaBody freshStore).2) ∧
      (getUser readDecimal "1" (createUser sampleValidator adaNow adaBody freshStore).2).1.body
        ≠ (createUser sampleValidator adaNow adaBody freshStore).1.body := by
  decide

/-! ## Further facts about the handlers -/

/-- A Create whose body does not decode is answered 400 with the decoder's message, and the
store is handed back as it was. -/
theorem createUser_malformed (v : Validator) (now : Time) (err : String) (s : Store) :
    createUser v now (.malformed err) s = (⟨400, .error err⟩, s) := rfl

/-- The statuses the handlers write: List answers 200 or 500, Create 201, 400 or 500, Get by
ID 200, 404 or 500; every answer other than 200 and 201 carries an error object. -/
theorem handler_statuses (v : Validator) (coerce : String → Option Int) (now : Time)
    (body : RawBody) (id : String) (s : Store) :
    ((listUsers s).1.status = 200 ∨
        ∃ msg, (listUsers s).1 = ⟨500, .error msg⟩) ∧
      ((∃ u, (createUser v now body s).1 = ⟨201, .user u⟩) ∨
        (∃ msg, (createUser v now body s).1 = ⟨400, .error msg⟩) ∨
        ∃ msg, (createUser v now body s).1 = ⟨500, .error msg⟩) ∧
      ((∃ u, (getUser coerce id s).1 = ⟨200, .user u⟩) ∨
        (getUser coerce id s).1 = ⟨404, .error "not found"⟩ ∨
        ∃ msg, (getUser coerce id s).1 = ⟨500, .error msg⟩) := by
  refine ⟨?_, ?_, ?_⟩
  · rw [listUsers_eq]
    cases (scanUsersOrderByID .nil s).1 with
    | error e => exact Or.inr ⟨_, rfl⟩
    | ok us => exact Or.inl rfl
  · cases hb : shouldBindJSON v body with
    | error msg =>
      right; left
      exact ⟨msg, by simp [createUser, hb, StatusBadRequest]⟩
    | ok inp =>
      rw [createUser_eq v now body s inp hb]
      cases (execInsert ⟨0, inp.Name, inp.Email, now⟩ s).1 with
      | error e => exact Or.inr (Or.inr ⟨_, rfl⟩)
      | ok u => exact Or.inl ⟨u, rfl⟩
  · rw [getUser_eq]
    rcases (scanUserWhereID coerce id User.zero s).1 with (_ | m) | u
    · exact Or.inr (Or.inl rfl)
    · exact Or.inr (Or.inr ⟨_, rfl⟩)
    · exact Or.inl ⟨u, rfl⟩

end Geist
